import Mathlib

/-!
Verification of the bounded producer/consumer message queue
(`src/common.h`, `src/queue_manager.c`, `src/utils.c`, `src/producer.c`,
consumer source) against its natural-language specification.

The C code is shallowly embedded:
* `message_t` mirrors the C struct; the fixed `data[MAX_DATA_SIZE]` array is
  modelled as a total function `Nat → Nat` on byte indices, so that
  uninitialized bytes past `size` are represented as arbitrary values.
* `queue_t` mirrors the C struct fields protected by the queue mutex, plus the
  two counting semaphores (their integer values) used by the semaphore
  strategy.  Pointers are modelled with `Option` at the dispatcher level.
* Machine integers are modelled as `Nat` (all the C values involved are
  non-negative along every path that executes), with `% 65536` where the
  16-bit `unsigned short` hash truncates.
* A blocking call is modelled as a function of the queue state at the moment
  the wait completes plus an observation describing at which checkpoint (if
  any) the termination flag was seen; this is the standard embedding of a
  lock-protected critical section.
-/

namespace ProdCons

/-- Constant `INITIAL_QUEUE_CAPACITY` from common.h. -/
def INITIAL_QUEUE_CAPACITY : Nat := 10
/-- Constant `MIN_QUEUE_CAPACITY` from common.h. -/
def MIN_QUEUE_CAPACITY : Nat := 1
/-- Constant `MAX_QUEUE_CAPACITY` from common.h. -/
def MAX_QUEUE_CAPACITY : Nat := 100
/-- Constant `MAX_DATA_SIZE` from common.h. -/
def MAX_DATA_SIZE : Nat := 256

/-- Enum `sync_mode_t` from common.h. -/
inductive sync_mode_t where
  | SYNC_MODE_SEM
  | SYNC_MODE_CONDVAR
deriving DecidableEq, Repr

/-- Struct `message_t` from common.h: `type` and `size` are bytes, `hash` is a 16-bit
value, `data` is the fixed 256-byte array, modelled as a total function so
that bytes at indices `≥ size` exist but may hold arbitrary values. -/
structure message_t where
  type : Nat
  hash : Nat
  size : Nat
  data : Nat → Nat

/-- A default message value standing for uninitialized buffer memory. -/
def msgDefault : message_t := { type := 0, hash := 0, size := 0, data := fun _ => 0 }

instance : Inhabited message_t := ⟨msgDefault⟩

/-- Function `calculate_message_hash` from utils.c:
`hash = (hash << 5) + hash + byte` on a 16-bit `unsigned short`
(so each assignment truncates mod 2^16), seeded at 0, folded over
`msg->type`, then `msg->size`, then the first `size` data bytes.
The `hash` field of the struct is never read. -/
def calculate_message_hash (msg : message_t) : Nat :=
  let h1 := (0 * 2 ^ 5 + 0 + msg.type) % 65536
  let h2 := (h1 * 2 ^ 5 + h1 + msg.size) % 65536
  (List.range msg.size).foldl (fun hash i => (hash * 2 ^ 5 + hash + msg.data i) % 65536) h2

/-- Modelled from the spec: the reference 16-bit rolling hash of §6,
`h' = h*33 + h + byte`, seeded at 0, folded first over the kind/`type` byte,
then the length/`size` byte, then each of the first `size` payload bytes in
order, truncated to 16 bits, with the checksum field treated as absent. -/
def spec_rolling_hash (msg : message_t) : Nat :=
  let h1 := (0 * 33 + 0 + msg.type) % 65536
  let h2 := (h1 * 33 + h1 + msg.size) % 65536
  (List.range msg.size).foldl (fun h i => (h * 33 + h + msg.data i) % 65536) h2

/-- Modelled from the spec, amended: same rolling hash but with step
`h' = h*33 + byte` (the classic djb2 step, which is what `(h << 5) + h + byte`
computes), seeded at 0, folded over `type`, `size`, then the payload bytes,
truncated to 16 bits, checksum field absent. -/
def spec_rolling_hash_amended (msg : message_t) : Nat :=
  let h1 := (0 * 33 + msg.type) % 65536
  let h2 := (h1 * 33 + msg.size) % 65536
  (List.range msg.size).foldl (fun h i => (h * 33 + msg.data i) % 65536) h2

/-- Pointwise-equal fold functions give equal folds (used to compare the
source hash with the spec's formula). -/
theorem foldl_congr_fn {α β : Type} {f g : β → α → β} (h : ∀ b a, f b a = g b a) :
    ∀ (l : List α) (b : β), l.foldl f b = l.foldl g b := by
  intro l
  induction l with
  | nil => intro b; rfl
  | cons a l ih => intro b; simp only [List.foldl_cons, h b a, ih]

/-- Fold functions equal on the list's members give equal folds. -/
theorem foldl_congr_mem {α β : Type} {l : List α} {f g : β → α → β}
    (h : ∀ a ∈ l, ∀ b, f b a = g b a) :
    ∀ b : β, l.foldl f b = l.foldl g b := by
  induction l with
  | nil => intro b; rfl
  | cons a l ih =>
      intro b
      simp only [List.foldl_cons, h a (List.mem_cons_self a l)]
      exact ih (fun a' ha' b' => h a' (List.mem_cons_of_mem a ha') b') _

/-- Struct `queue_t` from common.h.  `messages` is the ring buffer (length =
`capacity`); `empty_slots`/`full_slots` are the integer values of the two
counting semaphores of the semaphore strategy (unused by the condvar
strategy); `mutex` and the condition variables carry no modelled state. -/
structure queue_t where
  messages : List message_t
  capacity : Nat
  count : Nat
  head_idx : Nat
  tail_idx : Nat
  empty_slots : Nat
  full_slots : Nat
  added_count_total : Nat
  extracted_count_total : Nat

/-- Function `queue_create` from queue_manager.c (success path; allocation failure
returns NULL in C and is not modelled).  Clamps the capacity into
`[MIN_QUEUE_CAPACITY, MAX_QUEUE_CAPACITY]` (0 requests the default), zeroes
the indices and totals, and initializes the semaphores to `capacity`/`0` in
semaphore mode.  The freshly malloc'd buffer is uninitialized; we model it
with `msgDefault` entries (no operation ever reads a slot outside the live
region). -/
def queue_create (initial_capacity : Nat) (mode : sync_mode_t) : queue_t :=
  let cap0 := if initial_capacity = 0 then INITIAL_QUEUE_CAPACITY else initial_capacity
  let cap1 := if cap0 < MIN_QUEUE_CAPACITY then MIN_QUEUE_CAPACITY else cap0
  let cap := if cap1 > MAX_QUEUE_CAPACITY then MAX_QUEUE_CAPACITY else cap1
  { messages := List.replicate cap msgDefault
    capacity := cap
    count := 0
    head_idx := 0
    tail_idx := 0
    empty_slots := if mode = sync_mode_t.SYNC_MODE_SEM then cap else 0
    full_slots := 0
    added_count_total := 0
    extracted_count_total := 0 }

/-- The critical section shared verbatim by `queue_add_sem` and
`queue_add_condvar` (queue_manager.c):
`messages[tail_idx] = *msg; tail_idx = (tail_idx + 1) % capacity; count++;
added_count_total++;`. -/
def addCore (q : queue_t) (msg : message_t) : queue_t :=
  { q with
    messages := q.messages.set q.tail_idx msg
    tail_idx := (q.tail_idx + 1) % q.capacity
    count := q.count + 1
    added_count_total := q.added_count_total + 1 }

/-- The critical section shared verbatim by `queue_remove_sem` and
`queue_remove_condvar` (queue_manager.c):
`*msg = messages[head_idx]; head_idx = (head_idx + 1) % capacity; count--;
extracted_count_total++;`.  Returns the removed message and the new state. -/
def removeCore (q : queue_t) : message_t × queue_t :=
  (q.messages.getD q.head_idx msgDefault,
   { q with
     head_idx := (q.head_idx + 1) % q.capacity
     count := q.count - 1
     extracted_count_total := q.extracted_count_total + 1 })

/-- The live items of the ring buffer in logical FIFO order: the `count`
entries starting at `head_idx`, wrapping mod `capacity`. -/
def queueItems (q : queue_t) : List message_t :=
  (List.range q.count).map fun i => q.messages.getD ((q.head_idx + i) % q.capacity) msgDefault

/-- Structural well-formedness of a queue state: positive, bounded capacity,
buffer length matching the capacity, at most `capacity` live items, in-range
head index, tail index determined by head and count, and totals balancing
the live count.  This is the inductive invariant maintained by every
operation. -/
@[reducible] def Wf (q : queue_t) : Prop :=
  0 < q.capacity ∧ q.capacity ≤ MAX_QUEUE_CAPACITY ∧
  q.messages.length = q.capacity ∧
  q.count ≤ q.capacity ∧
  q.head_idx < q.capacity ∧
  q.tail_idx = (q.head_idx + q.count) % q.capacity ∧
  q.added_count_total = q.extracted_count_total + q.count

/-- At which checkpoint of a semaphore-strategy blocking wait the termination
flag was observed, if at all: during the `sem_wait` loop (`EINTR` with the
flag set, before any permit is consumed), right after `sem_wait` returned
(one permit consumed), or not at all (the call proceeds into the critical
section). -/
inductive WaitObs where
  | termInWait
  | termAfterWait
  | proceed
deriving DecidableEq, Repr

/-- Function `queue_add_sem` from queue_manager.c.  `sem_wait(empty_slots)` either is
interrupted with the termination flag set (return -1, nothing consumed), or
succeeds (one `empty_slots` permit consumed); if the flag is then set the
permit is `sem_post`ed back and the call returns -1; otherwise the mutex is
taken, a defensive full-queue check `sem_post`s the permit back on failure,
and on the normal path the shared critical section runs and `full_slots` is
posted. -/
def queue_add_sem (q : queue_t) (msg : message_t) (obs : WaitObs) : queue_t × Int :=
  match obs with
  | .termInWait => (q, -1)
  | .termAfterWait => ({ q with empty_slots := q.empty_slots - 1 + 1 }, -1)
  | .proceed =>
      let q1 := { q with empty_slots := q.empty_slots - 1 }
      if q1.count ≥ q1.capacity then
        ({ q1 with empty_slots := q1.empty_slots + 1 }, -1)
      else
        let q2 := addCore q1 msg
        ({ q2 with full_slots := q2.full_slots + 1 }, 0)

/-- Function `queue_remove_sem` from queue_manager.c, mirror of `queue_add_sem`:
wait on `full_slots`, check the flag (reposting the permit if set), defensive
empty-queue check, shared critical section, post `empty_slots`.  The removed
message (the C out-parameter) is returned as `some`, or `none` when the call
fails without writing it. -/
def queue_remove_sem (q : queue_t) (obs : WaitObs) : queue_t × Option message_t × Int :=
  match obs with
  | .termInWait => (q, none, -1)
  | .termAfterWait => ({ q with full_slots := q.full_slots - 1 + 1 }, none, -1)
  | .proceed =>
      let q1 := { q with full_slots := q.full_slots - 1 }
      if q1.count = 0 then
        ({ q1 with full_slots := q1.full_slots + 1 }, none, -1)
      else
        let r := removeCore q1
        ({ r.2 with empty_slots := r.2.empty_slots + 1 }, some r.1, 0)

/-- Function `queue_add_condvar` from queue_manager.c.  The state `q` is the queue at
the moment the `while (count == capacity && !g_terminate_flag)` wait loop
exits with the mutex held, and `term` is the termination flag read at that
moment: flag set means return -1 untouched; then the defensive
still-full check, then the shared critical section and a `not_empty`
signal. -/
def queue_add_condvar (q : queue_t) (msg : message_t) (term : Bool) : queue_t × Int :=
  if term then (q, -1)
  else if q.count ≥ q.capacity then (q, -1)
  else (addCore q msg, 0)

/-- Function `queue_remove_condvar` from queue_manager.c, mirror of
`queue_add_condvar` with the empty-queue wait loop. -/
def queue_remove_condvar (q : queue_t) (term : Bool) : queue_t × Option message_t × Int :=
  if term then (q, none, -1)
  else if q.count = 0 then (q, none, -1)
  else
    let r := removeCore q
    (r.2, some r.1, 0)

/-- The new-capacity computation of `queue_resize` (queue_manager.c): grow
clamps to `MAX_QUEUE_CAPACITY` (with the overflow pre-check
`(size_t)change > MAX_QUEUE_CAPACITY - old_capacity`), shrink clamps to
`MIN_QUEUE_CAPACITY` (with the underflow pre-check
`decrease_amount >= old_capacity`).  `queue_resize` only calls this with
`change ≠ 0`. -/
def resize_new_capacity (old_capacity : Nat) (change : Int) : Nat :=
  if change > 0 then
    if change.toNat > MAX_QUEUE_CAPACITY - old_capacity then MAX_QUEUE_CAPACITY
    else
      let n := old_capacity + change.toNat
      if n > MAX_QUEUE_CAPACITY then MAX_QUEUE_CAPACITY else n
  else
    let decrease_amount := (-change).toNat
    if decrease_amount ≥ old_capacity then MIN_QUEUE_CAPACITY
    else
      let n := old_capacity - decrease_amount
      if n < MIN_QUEUE_CAPACITY then MIN_QUEUE_CAPACITY else n

/-- The buffer replacement of an accepted `queue_resize` (queue_manager.c):
malloc a buffer of `new_capacity` (fresh slots uninitialized, modelled as
`msgDefault`), copy the `count` live items starting at `head_idx` linearly to
index 0, set `head_idx = 0` and
`tail_idx = (count == new_capacity && new_capacity > 0) ? 0 : count`. -/
def resizeBuffer (q : queue_t) (new_capacity : Nat) : queue_t :=
  { q with
    messages := (List.range new_capacity).map fun i =>
      if i < q.count then q.messages.getD ((q.head_idx + i) % q.capacity) msgDefault
      else msgDefault
    capacity := new_capacity
    head_idx := 0
    tail_idx := if q.count = new_capacity ∧ 0 < new_capacity then 0 else q.count }

/-- Function `queue_resize` from queue_manager.c, state transition under the queue
mutex (the condvar strategy's primitive reconciliation is a broadcast, which
changes no modelled state; see `queue_resize_sem` for the semaphore
strategy).  `change == 0` is refused at entry with -1; a computed capacity
equal to the current one is an Ok no-op; a target smaller than the live item
count is rejected with -1 and no mutation; otherwise the buffer is replaced
(`malloc` failure not modelled). -/
def queue_resize (q : queue_t) (change : Int) : queue_t × Int :=
  if change = 0 then (q, -1)
  else
    let new_capacity := resize_new_capacity q.capacity change
    if new_capacity = q.capacity then (q, 0)
    else if new_capacity < q.count then (q, -1)
    else (resizeBuffer q new_capacity, 0)

/-- Function `queue_resize` from queue_manager.c in the semaphore strategy: the same
guards and buffer replacement as `queue_resize`, then the semaphore
reconciliation: growing posts `new - old` fresh `empty_slots` permits;
shrinking loops `old - new` times on `sem_wait(empty_slots)` to reclaim the
revoked slots.  `reclaimTerm = some k` observes `EINTR` with the termination
flag set at iteration `k` of that reclaim loop (only meaningful for
`k < old - new`): the function stops waiting, having consumed `k` permits,
and returns -1. -/
def queue_resize_sem (q : queue_t) (change : Int) (reclaimTerm : Option Nat) :
    queue_t × Int :=
  if change = 0 then (q, -1)
  else
    let old_capacity := q.capacity
    let new_capacity := resize_new_capacity old_capacity change
    if new_capacity = old_capacity then (q, 0)
    else if new_capacity < q.count then (q, -1)
    else
      let q1 := resizeBuffer q new_capacity
      if old_capacity < new_capacity then
        ({ q1 with empty_slots := q1.empty_slots + (new_capacity - old_capacity) }, 0)
      else
        let removed_slots := old_capacity - new_capacity
        match reclaimTerm with
        | some k =>
            if k < removed_slots then
              ({ q1 with empty_slots := q1.empty_slots - k }, -1)
            else
              ({ q1 with empty_slots := q1.empty_slots - removed_slots }, 0)
        | none => ({ q1 with empty_slots := q1.empty_slots - removed_slots }, 0)

/-- Function `queue_add` from queue_manager.c: the public dispatcher.  NULL queue or
message pointers (modelled as `none`) are refused at entry with -1; otherwise
the call is forwarded to the strategy selected by `g_sync_mode` (`obs` feeds
the semaphore implementation, `term` the condvar one). -/
def queue_add (qOpt : Option queue_t) (msgOpt : Option message_t) (mode : sync_mode_t)
    (obs : WaitObs) (term : Bool) : Option queue_t × Int :=
  match qOpt, msgOpt with
  | some q, some msg =>
      match mode with
      | .SYNC_MODE_SEM => let r := queue_add_sem q msg obs; (some r.1, r.2)
      | .SYNC_MODE_CONDVAR => let r := queue_add_condvar q msg term; (some r.1, r.2)
  | _, _ => (qOpt, -1)

/-- Function `queue_remove` from queue_manager.c: the public dispatcher.  A NULL queue
pointer or a NULL out-message pointer (`msgPtrValid = false`) is refused at
entry with -1 and nothing written. -/
def queue_remove (qOpt : Option queue_t) (msgPtrValid : Bool) (mode : sync_mode_t)
    (obs : WaitObs) (term : Bool) : Option queue_t × Option message_t × Int :=
  match qOpt, msgPtrValid with
  | some q, true =>
      match mode with
      | .SYNC_MODE_SEM => let r := queue_remove_sem q obs; (some r.1, r.2.1, r.2.2)
      | .SYNC_MODE_CONDVAR => let r := queue_remove_condvar q term; (some r.1, r.2.1, r.2.2)
  | _, _ => (qOpt, none, -1)

/-- The `queue_resize` entry guard from queue_manager.c: `if (!q || change == 0)
return -1;` — the NULL-pointer half, wrapping the state transition. -/
def queue_resize_dispatch (qOpt : Option queue_t) (change : Int) : Option queue_t × Int :=
  match qOpt with
  | none => (none, -1)
  | some q => let r := queue_resize q change; (some r.1, r.2)

/-- Function `queue_get_count` from queue_manager.c: 0 on a NULL queue, otherwise the
lock-protected `count`. -/
def queue_get_count : Option queue_t → Nat
  | none => 0
  | some q => q.count

/-- Function `queue_get_capacity` from queue_manager.c. -/
def queue_get_capacity : Option queue_t → Nat
  | none => 0
  | some q => q.capacity

/-- Function `queue_get_added_total` from queue_manager.c. -/
def queue_get_added_total : Option queue_t → Nat
  | none => 0
  | some q => q.added_count_total

/-- Function `queue_get_extracted_total` from queue_manager.c. -/
def queue_get_extracted_total : Option queue_t → Nat
  | none => 0
  | some q => q.extracted_count_total

/-- Function `queue_destroy` from queue_manager.c: `if (!q) return;` — on a NULL
pointer it returns immediately having destroyed nothing; otherwise it tears
down the primitives and frees the buffer and the structure.  Its observable
effect is modelled as whether the queue's resources were released. -/
def queue_destroy (qOpt : Option queue_t) (_mode : sync_mode_t) : Bool :=
  match qOpt with
  | none => false
  | some _ => true

/-- One call made against the queue in a run: an enqueue of a given message,
a dequeue, or a resize, each carrying the environment observations the call
may need (`obs` for semaphore-strategy waits, `term` for the condvar wait
loop, `reclaimTerm` for the semaphore shrink-reclaim loop). -/
inductive Op where
  | add (msg : message_t) (obs : WaitObs) (term : Bool)
  | remove (obs : WaitObs) (term : Bool)
  | resize (change : Int) (reclaimTerm : Option Nat)

/-- Execute one `Op` in the given synchronization strategy.  Returns the new
queue state, the messages committed by a successful enqueue (empty on
failure) and the messages returned by a successful dequeue. -/
def stepOp (mode : sync_mode_t) (q : queue_t) : Op → queue_t × List message_t × List message_t
  | .add msg obs term =>
      match mode with
      | .SYNC_MODE_SEM =>
          let r := queue_add_sem q msg obs
          (r.1, if r.2 = 0 then [msg] else [], [])
      | .SYNC_MODE_CONDVAR =>
          let r := queue_add_condvar q msg term
          (r.1, if r.2 = 0 then [msg] else [], [])
  | .remove obs term =>
      match mode with
      | .SYNC_MODE_SEM =>
          let r := queue_remove_sem q obs
          (r.1, [], match r.2.1 with | some m => [m] | none => [])
      | .SYNC_MODE_CONDVAR =>
          let r := queue_remove_condvar q term
          (r.1, [], match r.2.1 with | some m => [m] | none => [])
  | .resize change reclaimTerm =>
      match mode with
      | .SYNC_MODE_SEM => ((queue_resize_sem q change reclaimTerm).1, [], [])
      | .SYNC_MODE_CONDVAR => ((queue_resize q change).1, [], [])

/-- Execute a sequence of calls, accumulating the enqueued and dequeued
message sequences in order. -/
def runOps (mode : sync_mode_t) (q : queue_t) :
    List Op → queue_t × List message_t × List message_t
  | [] => (q, [], [])
  | op :: ops =>
      let r := stepOp mode q op
      let rest := runOps mode r.1 ops
      (rest.1, r.2.1 ++ rest.2.1, r.2.2 ++ rest.2.2)

/-- A queue state is reachable when some run of calls from a freshly created
queue produces it. -/
def reachableState (q : queue_t) : Prop :=
  ∃ (mode : sync_mode_t) (cap : Nat) (ops : List Op),
    q = (runOps mode (queue_create cap mode) ops).1

/-! ### List and modular-arithmetic helpers -/

theorem getD_set_self (l : List message_t) (i : Nat) (a d : message_t)
    (h : i < l.length) : (l.set i a).getD i d = a := by
  rw [List.getD_eq_getElem?_getD, List.getElem?_set_eq_of_lt a h]
  rfl

theorem getD_set_ne (l : List message_t) (i j : Nat) (a d : message_t)
    (h : i ≠ j) : (l.set i a).getD j d = l.getD j d := by
  rw [List.getD_eq_getElem?_getD, List.getElem?_set_ne h, ← List.getD_eq_getElem?_getD]

theorem getD_map_range {α : Type} (g : Nat → α) (n i : Nat) (h : i < n) (d : α) :
    ((List.range n).map g).getD i d = g i := by
  rw [List.getD_eq_getElem?_getD, List.getElem?_map, List.getElem?_range h]
  rfl

/-- Two logical positions of the ring buffer with distinct offsets below the
capacity land on distinct physical indices. -/
theorem ring_index_ne (cap head i j : Nat) (hi : i < cap) (hj : j < cap) (hij : i ≠ j) :
    (head + i) % cap ≠ (head + j) % cap := by
  intro hEq
  have h2 : i % cap = j % cap := Nat.ModEq.add_left_cancel' head hEq
  rw [Nat.mod_eq_of_lt hi, Nat.mod_eq_of_lt hj] at h2
  exact hij h2

/-! ### The critical sections preserve the invariant and act as list
enqueue/dequeue on the logical contents -/

theorem wf_addCore (q : queue_t) (m : message_t) (h : Wf q) (hc : q.count < q.capacity) :
    Wf (addCore q m) := by
  obtain ⟨hcap, hmax, hlen, _, hhead, htail, htot⟩ := h
  refine ⟨hcap, hmax, ?_, hc, hhead, ?_, ?_⟩
  · simpa [addCore] using hlen
  · show (q.tail_idx + 1) % q.capacity = (q.head_idx + (q.count + 1)) % q.capacity
    rw [htail, Nat.mod_add_mod]
    ring_nf
  · show q.added_count_total + 1 = q.extracted_count_total + (q.count + 1)
    omega

theorem queueItems_addCore (q : queue_t) (m : message_t) (h : Wf q)
    (hc : q.count < q.capacity) :
    queueItems (addCore q m) = queueItems q ++ [m] := by
  obtain ⟨hcap, _, hlen, _, hhead, htail, _⟩ := h
  show (List.range (q.count + 1)).map
      (fun i => (q.messages.set q.tail_idx m).getD ((q.head_idx + i) % q.capacity) msgDefault)
    = (List.range q.count).map
      (fun i => q.messages.getD ((q.head_idx + i) % q.capacity) msgDefault) ++ [m]
  rw [List.range_succ (n := q.count), List.map_append]
  congr 1
  · refine List.map_congr_left ?_
    intro i hi
    rw [List.mem_range] at hi
    refine getD_set_ne _ _ _ _ _ ?_
    rw [htail]
    exact (ring_index_ne q.capacity q.head_idx i q.count (lt_trans hi hc) hc
      (Nat.ne_of_lt hi)).symm
  · show [(q.messages.set q.tail_idx m).getD ((q.head_idx + q.count) % q.capacity) msgDefault]
      = [m]
    rw [← htail]
    rw [getD_set_self]
    rw [hlen, htail]
    exact Nat.mod_lt _ hcap

theorem wf_removeCore (q : queue_t) (h : Wf q) (hc : 0 < q.count) :
    Wf (removeCore q).2 := by
  obtain ⟨hcap, hmax, hlen, hcnt, hhead, htail, htot⟩ := h
  refine ⟨hcap, hmax, hlen, ?_, Nat.mod_lt _ hcap, ?_, ?_⟩
  · show q.count - 1 ≤ q.capacity; omega
  · show q.tail_idx = ((q.head_idx + 1) % q.capacity + (q.count - 1)) % q.capacity
    rw [Nat.mod_add_mod, htail]
    congr 1
    omega
  · show q.added_count_total = q.extracted_count_total + 1 + (q.count - 1)
    omega

theorem queueItems_removeCore (q : queue_t) (h : Wf q) (hc : 0 < q.count) :
    queueItems q = (removeCore q).1 :: queueItems (removeCore q).2 := by
  obtain ⟨hcap, _, hlen, hcnt, hhead, htail, _⟩ := h
  show (List.range q.count).map
      (fun i => q.messages.getD ((q.head_idx + i) % q.capacity) msgDefault)
    = q.messages.getD q.head_idx msgDefault ::
      (List.range (q.count - 1)).map
        (fun i => q.messages.getD (((q.head_idx + 1) % q.capacity + i) % q.capacity) msgDefault)
  obtain ⟨k, hk⟩ : ∃ k, q.count = k + 1 := ⟨q.count - 1, by omega⟩
  rw [hk]
  rw [List.range_succ_eq_map, List.map_cons, List.map_map]
  simp only [Nat.add_sub_cancel]
  congr 1
  · rw [Nat.add_zero, Nat.mod_eq_of_lt hhead]
  · refine List.map_congr_left ?_
    intro i _
    show q.messages.getD ((q.head_idx + Nat.succ i) % q.capacity) msgDefault
      = q.messages.getD (((q.head_idx + 1) % q.capacity + i) % q.capacity) msgDefault
    rw [Nat.mod_add_mod]
    congr 2
    omega

theorem wf_resizeBuffer (q : queue_t) (ncap : Nat) (h : Wf q)
    (hn1 : MIN_QUEUE_CAPACITY ≤ ncap) (hn2 : ncap ≤ MAX_QUEUE_CAPACITY)
    (hcnt : q.count ≤ ncap) : Wf (resizeBuffer q ncap) := by
  obtain ⟨hcap, hmax, hlen, _, hhead, htail, htot⟩ := h
  have hpos : 0 < ncap := by
    have : (1 : Nat) ≤ ncap := hn1
    omega
  refine ⟨hpos, hn2, ?_, hcnt, hpos, ?_, htot⟩
  · show ((List.range ncap).map _).length = ncap
    simp
  · show (if q.count = ncap ∧ 0 < ncap then 0 else q.count) = (0 + q.count) % ncap
    rw [Nat.zero_add]
    by_cases heq : q.count = ncap
    · simp [heq, hpos, Nat.mod_self]
    · have : q.count < ncap := by omega
      simp [heq, Nat.mod_eq_of_lt this]

theorem queueItems_resizeBuffer (q : queue_t) (ncap : Nat) (h : Wf q)
    (hcnt : q.count ≤ ncap) :
    queueItems (resizeBuffer q ncap) = queueItems q := by
  obtain ⟨hcap, _, hlen, _, hhead, htail, _⟩ := h
  show (List.range q.count).map
      (fun i => ((List.range ncap).map fun j =>
          if j < q.count then q.messages.getD ((q.head_idx + j) % q.capacity) msgDefault
          else msgDefault).getD ((0 + i) % ncap) msgDefault)
    = (List.range q.count).map
      (fun i => q.messages.getD ((q.head_idx + i) % q.capacity) msgDefault)
  refine List.map_congr_left ?_
  intro i hi
  rw [List.mem_range] at hi
  have hin : i < ncap := lt_of_lt_of_le hi hcnt
  rw [Nat.zero_add, Nat.mod_eq_of_lt hin, getD_map_range _ _ _ hin]
  simp [hi]

/-! ### Per-call specifications -/

theorem queue_add_sem_spec (q : queue_t) (m : message_t) (obs : WaitObs) (h : Wf q) :
    Wf (queue_add_sem q m obs).1 ∧
    queueItems (queue_add_sem q m obs).1 =
      queueItems q ++ (if (queue_add_sem q m obs).2 = 0 then [m] else []) := by
  cases obs with
  | termInWait =>
      exact ⟨h, by simp [queue_add_sem]⟩
  | termAfterWait =>
      refine ⟨h, ?_⟩
      simp only [queue_add_sem]
      norm_num
      rfl
  | proceed =>
      by_cases hc : q.count ≥ q.capacity
      · have e1 : (queue_add_sem q m .proceed).1 =
            { q with empty_slots := q.empty_slots - 1 + 1 } := by
          simp [queue_add_sem, hc]
        have e2 : (queue_add_sem q m .proceed).2 = -1 := by
          simp [queue_add_sem, hc]
        rw [e1, e2]
        exact ⟨h, by norm_num; rfl⟩
      · push_neg at hc
        have e1 : (queue_add_sem q m .proceed).1 =
            { addCore { q with empty_slots := q.empty_slots - 1 } m with
                full_slots := q.full_slots + 1 } := by
          simp [queue_add_sem, addCore, not_le.mpr hc]
        have e2 : (queue_add_sem q m .proceed).2 = 0 := by
          simp [queue_add_sem, not_le.mpr hc]
        rw [e1, e2]
        constructor
        · exact wf_addCore { q with empty_slots := q.empty_slots - 1 } m h hc
        · simp only [if_pos rfl]
          exact queueItems_addCore { q with empty_slots := q.empty_slots - 1 } m h hc

theorem queue_remove_sem_spec (q : queue_t) (obs : WaitObs) (h : Wf q) :
    Wf (queue_remove_sem q obs).1 ∧
    queueItems q =
      (match (queue_remove_sem q obs).2.1 with | some m => [m] | none => []) ++
        queueItems (queue_remove_sem q obs).1 := by
  cases obs with
  | termInWait => exact ⟨h, by simp [queue_remove_sem]⟩
  | termAfterWait =>
      refine ⟨h, ?_⟩
      simp only [queue_remove_sem]
      rfl
  | proceed =>
      by_cases hc : q.count = 0
      · have e1 : (queue_remove_sem q .proceed).1 =
            { q with full_slots := q.full_slots - 1 + 1 } := by
          simp [queue_remove_sem, hc]
        have e2 : (queue_remove_sem q .proceed).2.1 = none := by
          simp [queue_remove_sem, hc]
        rw [e1, e2]
        exact ⟨h, rfl⟩
      · have hpos : 0 < q.count := Nat.pos_of_ne_zero hc
        have e1 : (queue_remove_sem q .proceed).1 =
            { (removeCore { q with full_slots := q.full_slots - 1 }).2 with
                empty_slots := q.empty_slots + 1 } := by
          simp [queue_remove_sem, hc, removeCore]
        have e2 : (queue_remove_sem q .proceed).2.1 =
            some (removeCore { q with full_slots := q.full_slots - 1 }).1 := by
          simp [queue_remove_sem, hc, removeCore]
        rw [e1, e2]
        constructor
        · exact wf_removeCore { q with full_slots := q.full_slots - 1 } h hpos
        · exact queueItems_removeCore { q with full_slots := q.full_slots - 1 } h hpos

theorem queue_add_condvar_spec (q : queue_t) (m : message_t) (term : Bool) (h : Wf q) :
    Wf (queue_add_condvar q m term).1 ∧
    queueItems (queue_add_condvar q m term).1 =
      queueItems q ++ (if (queue_add_condvar q m term).2 = 0 then [m] else []) := by
  cases term with
  | true => exact ⟨h, by simp [queue_add_condvar]⟩
  | false =>
      by_cases hc : q.count ≥ q.capacity
      · have e1 : queue_add_condvar q m false = (q, -1) := by
          simp [queue_add_condvar, hc]
        rw [e1]
        exact ⟨h, by simp⟩
      · push_neg at hc
        have e1 : queue_add_condvar q m false = (addCore q m, 0) := by
          simp [queue_add_condvar, not_le.mpr hc]
        rw [e1]
        exact ⟨wf_addCore q m h hc, by simpa using queueItems_addCore q m h hc⟩

theorem queue_remove_condvar_spec (q : queue_t) (term : Bool) (h : Wf q) :
    Wf (queue_remove_condvar q term).1 ∧
    queueItems q =
      (match (queue_remove_condvar q term).2.1 with | some m => [m] | none => []) ++
        queueItems (queue_remove_condvar q term).1 := by
  cases term with
  | true => exact ⟨h, by simp [queue_remove_condvar]⟩
  | false =>
      by_cases hc : q.count = 0
      · have e1 : queue_remove_condvar q false = (q, none, -1) := by
          simp [queue_remove_condvar, hc]
        rw [e1]
        exact ⟨h, rfl⟩
      · have hpos : 0 < q.count := Nat.pos_of_ne_zero hc
        have e1 : queue_remove_condvar q false =
            ((removeCore q).2, some (removeCore q).1, 0) := by
          simp [queue_remove_condvar, hc, removeCore]
        rw [e1]
        exact ⟨wf_removeCore q h hpos, queueItems_removeCore q h hpos⟩

theorem resize_new_capacity_bounds (old : Nat) (change : Int)
    (h1 : 0 < old) (h2 : old ≤ MAX_QUEUE_CAPACITY) :
    MIN_QUEUE_CAPACITY ≤ resize_new_capacity old change ∧
      resize_new_capacity old change ≤ MAX_QUEUE_CAPACITY := by
  simp only [resize_new_capacity, MIN_QUEUE_CAPACITY, MAX_QUEUE_CAPACITY] at *
  split_ifs <;> omega

theorem queue_resize_spec (q : queue_t) (change : Int) (h : Wf q) :
    Wf (queue_resize q change).1 ∧
    queueItems (queue_resize q change).1 = queueItems q := by
  by_cases h0 : change = 0
  · have e : queue_resize q change = (q, -1) := by simp [queue_resize, h0]
    rw [e]; exact ⟨h, rfl⟩
  · have hb := resize_new_capacity_bounds q.capacity change h.1 h.2.1
    by_cases hsame : resize_new_capacity q.capacity change = q.capacity
    · have e : queue_resize q change = (q, 0) := by simp [queue_resize, h0, hsame]
      rw [e]; exact ⟨h, rfl⟩
    · by_cases hrej : resize_new_capacity q.capacity change < q.count
      · have e : queue_resize q change = (q, -1) := by
          simp [queue_resize, h0, hsame, hrej]
        rw [e]; exact ⟨h, rfl⟩
      · push_neg at hrej
        have e1 : (queue_resize q change).1 =
            resizeBuffer q (resize_new_capacity q.capacity change) := by
          simp [queue_resize, h0, hsame, not_lt.mpr hrej]
        rw [e1]
        exact ⟨wf_resizeBuffer q _ h hb.1 hb.2 hrej,
          queueItems_resizeBuffer q _ h hrej⟩

theorem queue_resize_sem_spec (q : queue_t) (change : Int) (rt : Option Nat) (h : Wf q) :
    Wf (queue_resize_sem q change rt).1 ∧
    queueItems (queue_resize_sem q change rt).1 = queueItems q := by
  by_cases h0 : change = 0
  · have e : queue_resize_sem q change rt = (q, -1) := by simp [queue_resize_sem, h0]
    rw [e]; exact ⟨h, rfl⟩
  · have hb := resize_new_capacity_bounds q.capacity change h.1 h.2.1
    by_cases hsame : resize_new_capacity q.capacity change = q.capacity
    · have e : queue_resize_sem q change rt = (q, 0) := by simp [queue_resize_sem, h0, hsame]
      rw [e]; exact ⟨h, rfl⟩
    · by_cases hrej : resize_new_capacity q.capacity change < q.count
      · have e : queue_resize_sem q change rt = (q, -1) := by
          simp [queue_resize_sem, h0, hsame, hrej]
        rw [e]; exact ⟨h, rfl⟩
      · push_neg at hrej
        have hwf := wf_resizeBuffer q _ h hb.1 hb.2 hrej
        have hit := queueItems_resizeBuffer q (resize_new_capacity q.capacity change) h hrej
        by_cases hgrow : q.capacity < resize_new_capacity q.capacity change
        · have e1 : (queue_resize_sem q change rt).1 =
              { resizeBuffer q (resize_new_capacity q.capacity change) with
                  empty_slots := (resizeBuffer q (resize_new_capacity q.capacity change)).empty_slots
                    + (resize_new_capacity q.capacity change - q.capacity) } := by
            simp [queue_resize_sem, h0, hsame, not_lt.mpr hrej, hgrow]
          rw [e1]
          exact ⟨hwf, hit⟩
        · cases rt with
          | none =>
              have e1 : (queue_resize_sem q change none).1 =
                  { resizeBuffer q (resize_new_capacity q.capacity change) with
                      empty_slots := (resizeBuffer q (resize_new_capacity q.capacity change)).empty_slots
                        - (q.capacity - resize_new_capacity q.capacity change) } := by
                simp [queue_resize_sem, h0, hsame, not_lt.mpr hrej, hgrow]
              rw [e1]
              exact ⟨hwf, hit⟩
          | some k =>
              by_cases hk : k < q.capacity - resize_new_capacity q.capacity change
              · have e1 : (queue_resize_sem q change (some k)).1 =
                    { resizeBuffer q (resize_new_capacity q.capacity change) with
                        empty_slots := (resizeBuffer q (resize_new_capacity q.capacity change)).empty_slots - k } := by
                  simp [queue_resize_sem, h0, hsame, not_lt.mpr hrej, hgrow, hk]
                rw [e1]
                exact ⟨hwf, hit⟩
              · have e1 : (queue_resize_sem q change (some k)).1 =
                    { resizeBuffer q (resize_new_capacity q.capacity change) with
                        empty_slots := (resizeBuffer q (resize_new_capacity q.capacity change)).empty_slots
                          - (q.capacity - resize_new_capacity q.capacity change) } := by
                  simp [queue_resize_sem, h0, hsame, not_lt.mpr hrej, hgrow, hk]
                rw [e1]
                exact ⟨hwf, hit⟩

theorem wf_queue_create (cap : Nat) (mode : sync_mode_t) : Wf (queue_create cap mode) := by
  simp only [queue_create, Wf, INITIAL_QUEUE_CAPACITY, MIN_QUEUE_CAPACITY,
    MAX_QUEUE_CAPACITY]
  split_ifs <;>
    exact ⟨by omega, by omega, by simp, by omega, by omega, by simp, trivial⟩

theorem queueItems_queue_create (cap : Nat) (mode : sync_mode_t) :
    queueItems (queue_create cap mode) = [] := rfl

theorem stepOp_spec (mode : sync_mode_t) (q : queue_t) (op : Op) (h : Wf q) :
    Wf (stepOp mode q op).1 ∧
    queueItems q ++ (stepOp mode q op).2.1 =
      (stepOp mode q op).2.2 ++ queueItems (stepOp mode q op).1 := by
  cases op with
  | add msg obs term =>
      cases mode with
      | SYNC_MODE_SEM =>
          have hs := queue_add_sem_spec q msg obs h
          refine ⟨hs.1, ?_⟩
          show queueItems q ++ (if (queue_add_sem q msg obs).2 = 0 then [msg] else [])
            = [] ++ queueItems (queue_add_sem q msg obs).1
          rw [hs.2, List.nil_append]
      | SYNC_MODE_CONDVAR =>
          have hs := queue_add_condvar_spec q msg term h
          refine ⟨hs.1, ?_⟩
          show queueItems q ++ (if (queue_add_condvar q msg term).2 = 0 then [msg] else [])
            = [] ++ queueItems (queue_add_condvar q msg term).1
          rw [hs.2, List.nil_append]
  | remove obs term =>
      cases mode with
      | SYNC_MODE_SEM =>
          have hs := queue_remove_sem_spec q obs h
          refine ⟨hs.1, ?_⟩
          show queueItems q ++ []
            = (match (queue_remove_sem q obs).2.1 with | some m => [m] | none => []) ++
                queueItems (queue_remove_sem q obs).1
          rw [List.append_nil, hs.2]
      | SYNC_MODE_CONDVAR =>
          have hs := queue_remove_condvar_spec q term h
          refine ⟨hs.1, ?_⟩
          show queueItems q ++ []
            = (match (queue_remove_condvar q term).2.1 with | some m => [m] | none => []) ++
                queueItems (queue_remove_condvar q term).1
          rw [List.append_nil, hs.2]
  | resize change rt =>
      cases mode with
      | SYNC_MODE_SEM =>
          have hs := queue_resize_sem_spec q change rt h
          refine ⟨hs.1, ?_⟩
          show queueItems q ++ [] = [] ++ queueItems (queue_resize_sem q change rt).1
          rw [List.append_nil, List.nil_append, hs.2]
      | SYNC_MODE_CONDVAR =>
          have hs := queue_resize_spec q change h
          refine ⟨hs.1, ?_⟩
          show queueItems q ++ [] = [] ++ queueItems (queue_resize q change).1
          rw [List.append_nil, List.nil_append, hs.2]

theorem runOps_spec (mode : sync_mode_t) (ops : List Op) :
    ∀ q : queue_t, Wf q →
      Wf (runOps mode q ops).1 ∧
      queueItems q ++ (runOps mode q ops).2.1 =
        (runOps mode q ops).2.2 ++ queueItems (runOps mode q ops).1 := by
  induction ops with
  | nil =>
      intro q h
      exact ⟨h, by simp [runOps]⟩
  | cons op ops ih =>
      intro q h
      have hs := stepOp_spec mode q op h
      have hr := ih (stepOp mode q op).1 hs.1
      refine ⟨hr.1, ?_⟩
      show queueItems q ++
          ((stepOp mode q op).2.1 ++ (runOps mode (stepOp mode q op).1 ops).2.1)
        = ((stepOp mode q op).2.2 ++ (runOps mode (stepOp mode q op).1 ops).2.2) ++
            queueItems (runOps mode (stepOp mode q op).1 ops).1
      rw [← List.append_assoc, hs.2, List.append_assoc, hr.2, List.append_assoc]

theorem length_queueItems (q : queue_t) : (queueItems q).length = q.count := by
  simp [queueItems]

/-! ### Concrete states and messages used by the witnesses -/

/-- Concrete payload messages for witnesses. -/
def msgA : message_t := { type := 1, hash := 0, size := 1, data := fun _ => 10 }

def msgB : message_t := { type := 2, hash := 0, size := 1, data := fun _ => 20 }

def msgC : message_t := { type := 3, hash := 0, size := 1, data := fun _ => 30 }

/-- A well-formed queue of capacity 5 holding `msgA, msgB, msgC` (the spec's
shrink examples). -/
def qABC : queue_t :=
  { messages := [msgA, msgB, msgC, msgDefault, msgDefault]
    capacity := 5, count := 3, head_idx := 0, tail_idx := 3
    empty_slots := 2, full_slots := 3
    added_count_total := 3, extracted_count_total := 0 }

/-- A well-formed queue of capacity 5 holding one message. -/
def qOne : queue_t :=
  { messages := [msgA, msgDefault, msgDefault, msgDefault, msgDefault]
    capacity := 5, count := 1, head_idx := 0, tail_idx := 1
    empty_slots := 4, full_slots := 1
    added_count_total := 1, extracted_count_total := 0 }

/-! ### C1 -/

/-- C1: in either synchronization strategy, for every run of calls from a
freshly created queue, the sequence of messages returned by the successful
`queue_remove` calls is the prefix of the sequence passed to the successful
`queue_add` calls of that length, and once the queue has drained the two
sequences are equal — FIFO order is preserved. -/
theorem queue_fifo_law (mode : sync_mode_t) (cap : Nat) (ops : List Op) :
    (runOps mode (queue_create cap mode) ops).2.2 =
      (runOps mode (queue_create cap mode) ops).2.1.take
        (runOps mode (queue_create cap mode) ops).2.2.length ∧
    ((runOps mode (queue_create cap mode) ops).1.count = 0 →
      (runOps mode (queue_create cap mode) ops).2.2 =
        (runOps mode (queue_create cap mode) ops).2.1) := by
  have hr := runOps_spec mode ops (queue_create cap mode) (wf_queue_create cap mode)
  have heq : (runOps mode (queue_create cap mode) ops).2.1 =
      (runOps mode (queue_create cap mode) ops).2.2 ++
        queueItems (runOps mode (queue_create cap mode) ops).1 := by
    have h2 := hr.2
    rwa [queueItems_queue_create, List.nil_append] at h2
  constructor
  · rw [heq, List.take_left]
  · intro hcnt
    have hnil : queueItems (runOps mode (queue_create cap mode) ops).1 = [] := by
      have hlen := length_queueItems (runOps mode (queue_create cap mode) ops).1
      rw [hcnt] at hlen
      exact List.length_eq_zero.mp hlen
    rw [heq, hnil, List.append_nil]

/-- Witness for C1: a semaphore-mode run of one enqueue then one dequeue
drains the queue, and the dequeued sequence equals the enqueued one. -/
theorem queue_fifo_law_witness :
    (runOps .SYNC_MODE_SEM (queue_create 3 .SYNC_MODE_SEM)
        [Op.add msgA .proceed false, Op.remove .proceed false]).1.count = 0 ∧
    (runOps .SYNC_MODE_SEM (queue_create 3 .SYNC_MODE_SEM)
        [Op.add msgA .proceed false, Op.remove .proceed false]).2.2 =
      (runOps .SYNC_MODE_SEM (queue_create 3 .SYNC_MODE_SEM)
        [Op.add msgA .proceed false, Op.remove .proceed false]).2.1 :=
  ⟨by decide,
   (queue_fifo_law .SYNC_MODE_SEM 3
      [Op.add msgA .proceed false, Op.remove .proceed false]).2 (by decide)⟩

/-! ### C2 -/

/-- C2: every reachable queue state (after `queue_create` and any sequence of
add/remove/resize calls, observed with the lock free) satisfies
`0 ≤ count ≤ capacity`, `(tail_idx - head_idx) mod capacity = count` or
`count = capacity`, and `added_count_total - extracted_count_total = count`. -/
theorem queue_reachable_invariant (q : queue_t) (h : reachableState q) :
    q.count ≤ q.capacity ∧
    (((q.tail_idx : Int) - (q.head_idx : Int)) % (q.capacity : Int) = (q.count : Int) ∨
      q.count = q.capacity) ∧
    q.added_count_total = q.extracted_count_total + q.count := by
  obtain ⟨mode, cap, ops, rfl⟩ := h
  have hw := (runOps_spec mode ops (queue_create cap mode) (wf_queue_create cap mode)).1
  obtain ⟨hcap, hmax, hlen, hcnt, hhead, htail, htot⟩ := hw
  refine ⟨hcnt, ?_, htot⟩
  set Q := (runOps mode (queue_create cap mode) ops).1
  rcases Nat.lt_or_ge Q.count Q.capacity with hlt | hge
  · left
    have ht : ((Q.tail_idx : Int)) = ((Q.head_idx : Int) + Q.count) % (Q.capacity : Int) := by
      rw [htail]; push_cast; ring_nf
    rw [ht, Int.sub_emod, Int.emod_emod_of_dvd _ dvd_rfl, ← Int.sub_emod]
    have hdiff : ((Q.head_idx : Int) + Q.count) - Q.head_idx = Q.count := by ring
    rw [hdiff]
    exact Int.emod_eq_of_lt (Int.natCast_nonneg _) (by exact_mod_cast hlt)
  · right
    omega

/-- Witness for C2: the invariant holds for the state reached by a concrete
semaphore-mode run (create capacity 5, two enqueues, one dequeue, one
grow). -/
theorem queue_reachable_invariant_witness :
    ((runOps .SYNC_MODE_SEM (queue_create 5 .SYNC_MODE_SEM)
        [Op.add msgA .proceed false, Op.add msgB .proceed false,
         Op.remove .proceed false, Op.resize 2 none]).1.count ≤
      (runOps .SYNC_MODE_SEM (queue_create 5 .SYNC_MODE_SEM)
        [Op.add msgA .proceed false, Op.add msgB .proceed false,
         Op.remove .proceed false, Op.resize 2 none]).1.capacity) ∧
    ((((runOps .SYNC_MODE_SEM (queue_create 5 .SYNC_MODE_SEM)
        [Op.add msgA .proceed false, Op.add msgB .proceed false,
         Op.remove .proceed false, Op.resize 2 none]).1.tail_idx : Int) -
       ((runOps .SYNC_MODE_SEM (queue_create 5 .SYNC_MODE_SEM)
        [Op.add msgA .proceed false, Op.add msgB .proceed false,
         Op.remove .proceed false, Op.resize 2 none]).1.head_idx : Int)) %
       ((runOps .SYNC_MODE_SEM (queue_create 5 .SYNC_MODE_SEM)
        [Op.add msgA .proceed false, Op.add msgB .proceed false,
         Op.remove .proceed false, Op.resize 2 none]).1.capacity : Int) =
       ((runOps .SYNC_MODE_SEM (queue_create 5 .SYNC_MODE_SEM)
        [Op.add msgA .proceed false, Op.add msgB .proceed false,
         Op.remove .proceed false, Op.resize 2 none]).1.count : Int) ∨
      (runOps .SYNC_MODE_SEM (queue_create 5 .SYNC_MODE_SEM)
        [Op.add msgA .proceed false, Op.add msgB .proceed false,
         Op.remove .proceed false, Op.resize 2 none]).1.count =
      (runOps .SYNC_MODE_SEM (queue_create 5 .SYNC_MODE_SEM)
        [Op.add msgA .proceed false, Op.add msgB .proceed false,
         Op.remove .proceed false, Op.resize 2 none]).1.capacity) ∧
    (runOps .SYNC_MODE_SEM (queue_create 5 .SYNC_MODE_SEM)
        [Op.add msgA .proceed false, Op.add msgB .proceed false,
         Op.remove .proceed false, Op.resize 2 none]).1.added_count_total =
      (runOps .SYNC_MODE_SEM (queue_create 5 .SYNC_MODE_SEM)
        [Op.add msgA .proceed false, Op.add msgB .proceed false,
         Op.remove .proceed false, Op.resize 2 none]).1.extracted_count_total +
      (runOps .SYNC_MODE_SEM (queue_create 5 .SYNC_MODE_SEM)
        [Op.add msgA .proceed false, Op.add msgB .proceed false,
         Op.remove .proceed false, Op.resize 2 none]).1.count :=
  queue_reachable_invariant _
    ⟨.SYNC_MODE_SEM, 5,
     [Op.add msgA .proceed false, Op.add msgB .proceed false,
      Op.remove .proceed false, Op.resize 2 none], rfl⟩

/-! ### C3 -/

/-- C3: a `queue_add`/`queue_remove` call, in either strategy, that observes
the termination flag at any checkpoint of its blocking wait returns -1
(Cancelled) with the queue state — buffer, indices, count, totals, and
semaphore values — exactly as before the call; in the semaphore strategy a
permit already consumed by the call is reposted before returning. -/
theorem queue_cancellation_restores_state (q : queue_t) (m : message_t) :
    queue_add_sem q m .termInWait = (q, -1) ∧
    (0 < q.empty_slots → queue_add_sem q m .termAfterWait = (q, -1)) ∧
    queue_remove_sem q .termInWait = (q, none, -1) ∧
    (0 < q.full_slots → queue_remove_sem q .termAfterWait = (q, none, -1)) ∧
    queue_add_condvar q m true = (q, -1) ∧
    queue_remove_condvar q true = (q, none, -1) := by
  refine ⟨rfl, ?_, rfl, ?_, rfl, rfl⟩
  · intro h
    have e : q.empty_slots - 1 + 1 = q.empty_slots := by omega
    show ({ q with empty_slots := q.empty_slots - 1 + 1 }, (-1 : Int)) = (q, -1)
    rw [e]
  · intro h
    have e : q.full_slots - 1 + 1 = q.full_slots := by omega
    show (({ q with full_slots := q.full_slots - 1 + 1 } : queue_t),
        (none : Option message_t), (-1 : Int)) = (q, none, -1)
    rw [e]

/-- Witness for C3 at a concrete queue whose semaphores hold permits. -/
theorem queue_cancellation_restores_state_witness :
    queue_add_sem qABC msgA .termAfterWait = (qABC, -1) ∧
    queue_remove_sem qABC .termAfterWait = (qABC, none, -1) :=
  ⟨(queue_cancellation_restores_state qABC msgA).2.1 (by decide),
   (queue_cancellation_restores_state qABC msgA).2.2.2.1 (by decide)⟩

/-! ### C4 -/

/-- C4: an accepted resize (computed capacity differs from the current one
and is at least the live count) returns Ok, installs a buffer of the new
capacity with the `count` live items copied from `head_idx` in FIFO order to
index 0, sets `head_idx = 0` and `tail_idx = count` (wrapped to 0 when the
queue is exactly full), and leaves the count and the logical
contents-in-order unchanged, so subsequent dequeues return the same items in
the same order. -/
theorem queue_resize_accept_preserves_items (q : queue_t) (change : Int) (h : Wf q)
    (h0 : change ≠ 0)
    (hne : resize_new_capacity q.capacity change ≠ q.capacity)
    (hfit : q.count ≤ resize_new_capacity q.capacity change) :
    (queue_resize q change).2 = 0 ∧
    (queue_resize q change).1.capacity = resize_new_capacity q.capacity change ∧
    (queue_resize q change).1.count = q.count ∧
    (queue_resize q change).1.head_idx = 0 ∧
    (queue_resize q change).1.tail_idx =
      (if q.count = resize_new_capacity q.capacity change then 0 else q.count) ∧
    (queue_resize q change).1.messages.length = resize_new_capacity q.capacity change ∧
    (∀ i, i < q.count →
      (queue_resize q change).1.messages.getD i msgDefault =
        q.messages.getD ((q.head_idx + i) % q.capacity) msgDefault) ∧
    queueItems (queue_resize q change).1 = queueItems q := by
  have hb := resize_new_capacity_bounds q.capacity change h.1 h.2.1
  have hpos : 0 < resize_new_capacity q.capacity change := hb.1
  have e1 : queue_resize q change =
      (resizeBuffer q (resize_new_capacity q.capacity change), 0) := by
    simp [queue_resize, h0, hne, not_lt.mpr hfit]
  rw [e1]
  refine ⟨rfl, rfl, rfl, rfl, ?_, ?_, ?_, ?_⟩
  · show (if q.count = resize_new_capacity q.capacity change ∧
        0 < resize_new_capacity q.capacity change then 0 else q.count) = _
    by_cases hc : q.count = resize_new_capacity q.capacity change
    · simp [hc, hpos]
    · simp [hc]
  · show ((List.range (resize_new_capacity q.capacity change)).map _).length = _
    simp
  · intro i hi
    show ((List.range (resize_new_capacity q.capacity change)).map _).getD i msgDefault = _
    rw [getD_map_range _ _ _ (lt_of_lt_of_le hi hfit)]
    simp [hi]
  · exact queueItems_resizeBuffer q _ h hfit

/-- Witness for C4: the spec's shrink-acceptance example — capacity 5 with
items `A, B, C`, `Resize(-2)` (target 3) returns Ok and preserves the
contents-in-order. -/
theorem queue_resize_accept_preserves_items_witness :
    (queue_resize qABC (-2)).2 = 0 ∧
    queueItems (queue_resize qABC (-2)).1 = queueItems qABC :=
  ⟨(queue_resize_accept_preserves_items qABC (-2) (by decide) (by decide) (by decide)
      (by decide)).1,
   (queue_resize_accept_preserves_items qABC (-2) (by decide) (by decide) (by decide)
      (by decide)).2.2.2.2.2.2.2⟩

/-! ### C5 -/

/-- C5: a resize whose clamped target capacity is smaller than the live item
count is rejected: `queue_resize` returns -1 and the state — capacity,
count, indices, buffer, totals — is unchanged. -/
theorem queue_resize_reject_no_mutation (q : queue_t) (change : Int)
    (hcnt : q.count ≤ q.capacity) (h0 : change ≠ 0)
    (hlt : resize_new_capacity q.capacity change < q.count) :
    queue_resize q change = (q, -1) := by
  have hne : resize_new_capacity q.capacity change ≠ q.capacity := by omega
  simp [queue_resize, h0, hne, hlt]

/-- Witness for C5: the spec's shrink-rejection example — capacity 5,
count 3, `Resize(-3)` (target 2) is rejected and mutates nothing. -/
theorem queue_resize_reject_no_mutation_witness :
    queue_resize qABC (-3) = (qABC, -1) :=
  queue_resize_reject_no_mutation qABC (-3) (by decide) (by decide) (by decide)

/-! ### C6 (corrected) -/

/-- Counterexample to C6 as stated: `queue_resize` with delta 0 does NOT
return Ok (0); the entry guard `if (!q || change == 0) return -1;` rejects a
zero delta with -1 (the state is still untouched). -/
theorem queue_resize_zero_delta_counterexample :
    (queue_resize qABC 0).2 = -1 ∧ (queue_resize qABC 0).2 ≠ 0 := by
  constructor <;> decide

/-- C6 amended: `queue_resize` with delta 0 returns -1 at entry leaving the
state unchanged, and with any nonzero delta whose clamped capacity equals
the current capacity returns Ok (0) as a no-op, leaving count, capacity,
head, tail and the buffer unchanged. -/
theorem queue_resize_noop_amended (q : queue_t) (change : Int) :
    (change = 0 → queue_resize q change = (q, -1)) ∧
    (change ≠ 0 → resize_new_capacity q.capacity change = q.capacity →
      queue_resize q change = (q, 0)) := by
  constructor
  · intro h; simp [queue_resize, h]
  · intro h0 hsame; simp [queue_resize, h0, hsame]

/-- Witness for the amended C6: at maximum capacity, a grow request clamps
back to the current capacity and is an Ok no-op, and a zero delta returns
-1; both leave the state untouched. -/
theorem queue_resize_noop_amended_witness :
    queue_resize (queue_create 100 .SYNC_MODE_SEM) 5 =
      (queue_create 100 .SYNC_MODE_SEM, 0) ∧
    queue_resize (queue_create 100 .SYNC_MODE_SEM) 0 =
      (queue_create 100 .SYNC_MODE_SEM, -1) :=
  ⟨(queue_resize_noop_amended (queue_create 100 .SYNC_MODE_SEM) 5).2
      (by decide) (by decide),
   (queue_resize_noop_amended (queue_create 100 .SYNC_MODE_SEM) 0).1 rfl⟩

/-! ### C7 -/

/-- C7: in the semaphore strategy, the shrink-reclaim wait inside
`queue_resize` is cancellable by the termination signal: when the
`sem_wait(empty_slots)` reclaim loop is interrupted with the termination
flag set (at any iteration `k` before all revoked slots are reclaimed), the
resize stops waiting and returns the failure result -1 instead of
continuing to wait. -/
theorem queue_resize_shrink_reclaim_cancellable (q : queue_t) (change : Int) (k : Nat)
    (h0 : change ≠ 0)
    (hshrink : resize_new_capacity q.capacity change < q.capacity)
    (hfit : q.count ≤ resize_new_capacity q.capacity change)
    (hk : k < q.capacity - resize_new_capacity q.capacity change) :
    (queue_resize_sem q change (some k)).2 = -1 := by
  have hne : resize_new_capacity q.capacity change ≠ q.capacity := by omega
  have hgrow : ¬ q.capacity < resize_new_capacity q.capacity change := by omega
  simp [queue_resize_sem, h0, hne, not_lt.mpr hfit, hgrow, hk]

/-- Witness for C7: shrinking the one-item capacity-5 queue by 2 while the
termination flag interrupts the first reclaim `sem_wait` yields -1. -/
theorem queue_resize_shrink_reclaim_cancellable_witness :
    (queue_resize_sem qOne (-2) (some 0)).2 = -1 :=
  queue_resize_shrink_reclaim_cancellable qOne (-2) 0 (by decide) (by decide)
    (by decide) (by decide)

/-! ### C8 (corrected) -/

/-- A message on which the source hash and the spec's literal formula
disagree. -/
def msgH : message_t := { type := 1, hash := 0, size := 0, data := fun _ => 0 }

/-- Counterexample to C8 as stated: the spec's literal step
`h' = h*33 + h + byte` (i.e. `h*34 + byte`) does not match the code's
`(h << 5) + h + byte` (i.e. `h*33 + byte`): on a message with `type = 1`,
`size = 0` the code yields 33 while the spec formula yields 34. -/
theorem hash_spec_formula_counterexample :
    calculate_message_hash msgH = 33 ∧ spec_rolling_hash msgH = 34 ∧
    calculate_message_hash msgH ≠ spec_rolling_hash msgH := by
  refine ⟨by decide, by decide, by decide⟩

/-- C8 amended: `calculate_message_hash` equals the reference rolling hash
with step `h' = h*33 + byte` (what `(h << 5) + h + byte` computes), seeded
at 0, folded over the kind/type byte, the length/size byte, then the first
`size` payload bytes in order, truncated to 16 bits at each step, with the
checksum/hash field treated as absent. -/
theorem hash_matches_amended_spec (msg : message_t) :
    calculate_message_hash msg = spec_rolling_hash_amended msg := by
  have hstep : ∀ (b a : Nat),
      (b * 2 ^ 5 + b + msg.data a) % 65536 = (b * 33 + msg.data a) % 65536 := by
    intro b a
    congr 1
  unfold calculate_message_hash spec_rolling_hash_amended
  rw [foldl_congr_fn hstep]
  congr 1

/-! ### C9 -/

/-- C9: `calculate_message_hash` depends only on `type`, `size` and the
first `size` data bytes — the `hash` field and the data bytes at indices
`≥ size` never influence the result.  Hence a message whose padding bytes
are uninitialized still hashes identically after being copied by value
through the queue, and the consumer's recomputation with the hash field
zeroed reproduces the stored hash. -/
theorem hash_ignores_hash_field_and_padding :
    (∀ m1 m2 : message_t, m1.type = m2.type → m1.size = m2.size →
        (∀ i, i < m1.size → m1.data i = m2.data i) →
        calculate_message_hash m1 = calculate_message_hash m2) ∧
    (∀ (m : message_t) (h16 : Nat),
        calculate_message_hash { m with hash := h16 } = calculate_message_hash m) := by
  constructor
  · intro m1 m2 ht hs hd
    unfold calculate_message_hash
    rw [ht, hs]
    refine foldl_congr_mem ?_ _
    intro a ha b
    rw [List.mem_range] at ha
    rw [hd a (by rw [hs]; exact ha)]
  · intro m h16
    rfl

/-- Two messages agreeing on `type`, `size` and the live data bytes but
differing in `hash` and in the padding bytes past `size`. -/
def msgP1 : message_t := { type := 7, hash := 0, size := 2, data := fun i => i }

def msgP2 : message_t :=
  { type := 7, hash := 999, size := 2, data := fun i => if i < 2 then i else 55 }

/-- Witness for C9 at two concrete messages differing only in the hash field
and in padding bytes. -/
theorem hash_ignores_hash_field_and_padding_witness :
    calculate_message_hash msgP1 = calculate_message_hash msgP2 :=
  hash_ignores_hash_field_and_padding.1 msgP1 msgP2 rfl rfl (by decide)

/-! ### C10 -/

/-- C10: every public queue operation tolerates a NULL queue pointer (and,
for add/remove, a NULL message pointer) at entry: `queue_add`,
`queue_remove` and `queue_resize` return -1, the four statistics getters
return 0, and `queue_destroy` returns having destroyed nothing. -/
theorem queue_null_pointer_tolerance (q : queue_t) (msgOpt : Option message_t)
    (mode : sync_mode_t) (obs : WaitObs) (term : Bool) (change : Int) :
    queue_add none msgOpt mode obs term = (none, -1) ∧
    queue_add (some q) none mode obs term = (some q, -1) ∧
    queue_remove none true mode obs term = (none, none, -1) ∧
    queue_remove (some q) false mode obs term = (some q, none, -1) ∧
    queue_resize_dispatch none change = (none, -1) ∧
    queue_get_count none = 0 ∧
    queue_get_capacity none = 0 ∧
    queue_get_added_total none = 0 ∧
    queue_get_extracted_total none = 0 ∧
    queue_destroy none mode = false := by
  cases msgOpt <;>
    exact ⟨rfl, rfl, rfl, rfl, rfl, rfl, rfl, rfl, rfl, rfl⟩

end ProdCons
